import Mathlib

/-!
# QR Code Analyzer — client-side verification development

Shallow embedding of the QR security scanner mobile client
(`qr-security-scanner`), covering:

* `src/services/apiService.ts` — the `scanURL` retry loop and its data model;
* `src/utils/validation.ts` — QR payload classification and URL detection;
* `src/components/RiskScoreRing.tsx` — score-only classification;
* `app/history-detail.tsx` — severity ordering of risk factors;
* the history storage layer (`addToHistory`, `MAX_ITEMS`);
* `src/components/ScanResultView.tsx` — rendering of risk factors.

Numbers that the TypeScript code manipulates as doubles are embedded as
rationals (`ℚ`): every constant involved (0, 0.30, 0.60, 1) and every
comparison in the modelled code is exact in double precision, so the
rational model agrees with the float semantics on these operations.
-/

namespace QRScan

/-! ## Data model (`apiService.ts` response interfaces) -/

/-- `status ∈ {safe, suspicious, danger}` — the TS string union. -/
inductive Status where
  | safe
  | suspicious
  | danger
deriving DecidableEq, Repr

/-- `RiskFactor` from `apiService.ts`.  `severity` is kept as a raw string
because the TS type is a string union and the UI code defends against
unknown values (`SEVERITY_ORDER[a.severity] ?? 4`). -/
structure RiskFactor where
  code : String
  message : String
  severity : String
  evidence : Option String
deriving DecidableEq, Repr

/-- `FeatureContribution` from `apiService.ts`. -/
structure FeatureContribution where
  feature : String
  shap_value : ℚ
  feature_value : ℚ
  direction : String
deriving DecidableEq, Repr

/-- `MLDetails` from `apiService.ts`. -/
structure MLDetails where
  ml_score : ℚ
  xgb_score : ℚ
  dampened_score : ℚ
  explanation : Option (List FeatureContribution)
deriving DecidableEq, Repr

/-- `DomainDetails` from `apiService.ts`. -/
structure DomainDetails where
  registered_domain : String
  full_domain : String
  reputation_tier : String
  dampening_factor : ℚ
  trust_description : Option String
  age_days : Option Int
  registrar : Option String
deriving DecidableEq, Repr

/-- `NetworkDetails` from `apiService.ts`. -/
structure NetworkDetails where
  dns_resolved : Option Bool
  dns_ttl : Option Int
  dns_flags : List String
  ssl_valid : Option Bool
  ssl_issuer : Option String
  ssl_days_until_expiry : Option Int
  ssl_is_new_cert : Option Bool
  http_status : Option Int
  redirect_count : Int
  final_url : Option String
  content_flags : List String
deriving DecidableEq, Repr

/-- `ScanDetails` from `apiService.ts`: `risk_factors` is a list of
structured `RiskFactor` objects, not plain strings. -/
structure ScanDetails where
  ml : Option MLDetails
  domain : Option DomainDetails
  network : Option NetworkDetails
  risk_factors : List RiskFactor
  analysis_time_ms : Option Int
deriving DecidableEq, Repr

/-- `ScanResult` from `apiService.ts`. -/
structure ScanResult where
  status : Status
  message : String
  risk_score : ℚ
  details : Option ScanDetails
deriving DecidableEq, Repr

/-! ## History storage layer (`historyStore`) -/

/-- `HistoryItem` from the history storage layer. -/
structure HistoryItem where
  id : String
  createdAt : String
  rawPayload : String
  normalizedUrl : Option String
  result : ScanResult
deriving DecidableEq, Repr

/-- `MAX_ITEMS = 100`. -/
def MAX_ITEMS : Nat := 100

/-- `addToHistory`: `const updated = [item, ...current].slice(0, MAX_ITEMS)`,
then `saveHistory(updated)`.  `current` is the previously stored list (what
`loadHistory` returned) and the return value is what ends up in storage. -/
def addToHistory (current : List HistoryItem) (item : HistoryItem) :
    List HistoryItem :=
  (item :: current).take MAX_ITEMS

/-! ## Theme colours (`constants/theme.ts`, the fields used by the ring) -/

structure ScannerColors where
  primary : String
  success : String
  warning : String
  error : String
deriving DecidableEq, Repr

/-- `scannerColors` from `constants/theme.ts` (the fields `RiskScoreRing`
reads). -/
def scannerColors : ScannerColors :=
  { primary := "#007AFF"
    success := "#34C759"
    warning := "#FF9500"
    error := "#FF3B30" }

/-! ## `RiskScoreRing.tsx` -/

/-- `getColor(status?, score?)` from `RiskScoreRing.tsx`. -/
def getColor (status : Option Status) (score : Option ℚ) : String :=
  if status = some Status.safe then scannerColors.success
  else if status = some Status.danger then scannerColors.error
  else if status = some Status.suspicious then scannerColors.warning
  else
    match score with
    | some s =>
        if s < 0.30 then scannerColors.success
        else if s < 0.60 then scannerColors.warning
        else scannerColors.error
    | none => scannerColors.primary

/-- `getLabel(status?, score?)` from `RiskScoreRing.tsx`. -/
def getLabel (status : Option Status) (score : Option ℚ) : String :=
  if status = some Status.safe then "Safe"
  else if status = some Status.suspicious then "Suspicious"
  else if status = some Status.danger then "Threat Detected"
  else
    match score with
    | some s =>
        if s < 0.30 then "Safe"
        else if s < 0.60 then "Suspicious"
        else "Threat Detected"
    | none => ""

/-! ## `history-detail.tsx` — severity ordering -/

/-- `SEVERITY_ORDER[s] ?? 4` from `history-detail.tsx`. -/
def severityOrder (s : String) : Nat :=
  if s = "critical" then 0
  else if s = "high" then 1
  else if s = "medium" then 2
  else if s = "low" then 3
  else 4

/-- The comparator `(a, b) => SEVERITY_ORDER[a.severity] - SEVERITY_ORDER[b.severity]`
as the total preorder it induces. -/
def sevLE (a b : RiskFactor) : Prop :=
  severityOrder a.severity ≤ severityOrder b.severity

instance : DecidableRel sevLE := fun a b =>
  inferInstanceAs (Decidable (severityOrder a.severity ≤ severityOrder b.severity))

instance : IsTotal RiskFactor sevLE :=
  ⟨fun a b => Nat.le_total (severityOrder a.severity) (severityOrder b.severity)⟩

instance : IsTrans RiskFactor sevLE :=
  ⟨fun _ _ _ hab hbc => Nat.le_trans hab hbc⟩

/-- `sortBySeverity` from `history-detail.tsx`:
`[...factors].sort((a, b) => SEVERITY_ORDER[a.severity] - SEVERITY_ORDER[b.severity])`.
`Array.prototype.sort` is required to be stable (ES2019) and the comparator
is consistent, so the result is the unique stable sort by the induced
preorder; it is embedded as a stable insertion sort on that preorder. -/
def sortBySeverity (factors : List RiskFactor) : List RiskFactor :=
  List.insertionSort sevLE factors

/-! ## `apiService.ts` — the `scanURL` retry loop

The network is embedded as an oracle `env : Nat → FetchOutcome` giving the
outcome of the fetch performed on each attempt index.  `scanURL` itself is
deterministic given that trace. -/

/-- The relevant fields of `API_CONFIG` (`constants/api.ts`): `maxRetries`
(default 2) and `retryDelayMs` (default 1000). -/
structure ApiConfig where
  maxRetries : Nat
  retryDelayMs : Nat
deriving DecidableEq, Repr

/-- Outcome of one `fetchWithTimeout` call, as observed by `scanURL`:

* `netError` — `fetch` rejected with a `TypeError` (network failure);
* `timeout` — the `AbortController` fired: a `DOMException` named
  `AbortError`;
* `resp code detailMsg parsed` — an HTTP response with status `code`;
  `detailMsg` is `errorData?.detail?.[0]?.msg` when the body parses and has
  that field (used only for 422), `none` otherwise; `parsed` is the body
  decoded as a `ScanResult` when it parses as one (used only for 2xx),
  `none` when `response.json()` rejects. -/
inductive FetchOutcome where
  | netError
  | timeout
  | resp (code : Nat) (detailMsg : Option String) (parsed : Option ScanResult)
deriving DecidableEq, Repr

/-- How a `scanURL` call ends: a resolved `ScanResult`, a rejection with an
`Error` whose message `scanURL` itself built, or the re-thrown engine
`SyntaxError` from `response.json()` on a 2xx body that is not JSON. -/
inductive ScanOutcome where
  | returns (r : ScanResult)
  | throws (msg : String)
  | throwsParseFailure
deriving DecidableEq, Repr

/-- A run of `scanURL`: the final outcome, the number of fetch calls
performed, and the list of backoff delays slept (in order). -/
structure ScanRun where
  outcome : ScanOutcome
  fetches : Nat
  sleeps : List Nat
deriving DecidableEq, Repr

/-- The fallback returned from the tail of `scanURL` after all retries are
exhausted by a transient failure; `isTimeout` distinguishes the
`AbortError` case. -/
def exhaustedFallback (isTimeout : Bool) : ScanResult :=
  { status := Status.suspicious
    message :=
      if isTimeout then "Request timed out. Check your network connection."
      else "Could not connect to security server. Check your network."
    risk_score := 0
    details := none }

/-- `response.ok`: status in [200, 300). -/
def respOk (code : Nat) : Bool := 200 ≤ code ∧ code < 300

/-- Prepend one fetch (and optionally one sleep) to a run. -/
def ScanRun.afterRetry (delay : Nat) (r : ScanRun) : ScanRun :=
  { outcome := r.outcome, fetches := r.fetches + 1, sleeps := delay :: r.sleeps }

/-- One-shot run (a single fetch, no sleep). -/
def ScanRun.single (o : ScanOutcome) : ScanRun :=
  { outcome := o, fetches := 1, sleeps := [] }

/-- The body of `scanURL`'s `for` loop, one constructor per branch, in
source order.  `attempt` is the loop index (used for the backoff
exponent); `fuel` is the number of attempts still allowed including this
one, so the source's `attempt < API_CONFIG.maxRetries` test is `1 < fuel`.
The `fuel = 0` case is never reached from `scanURL` (which starts with
`maxRetries + 1 > 0` fuel and decrements by one per attempt). -/
def scanGo (cfg : ApiConfig) (env : Nat → FetchOutcome) :
    Nat → Nat → ScanRun
  | _, 0 => ScanRun.single (ScanOutcome.returns (exhaustedFallback false))
  | attempt, fuel + 1 =>
    match env attempt with
    | FetchOutcome.netError =>
        -- caught; `isRetryable` holds (TypeError)
        if 0 < fuel then
          ScanRun.afterRetry (cfg.retryDelayMs * 2 ^ attempt)
            (scanGo cfg env (attempt + 1) fuel)
        else
          -- retryable + exhausted: fall through to the tail
          ScanRun.single (ScanOutcome.returns (exhaustedFallback false))
    | FetchOutcome.timeout =>
        -- caught; `isRetryable` holds (AbortError)
        if 0 < fuel then
          ScanRun.afterRetry (cfg.retryDelayMs * 2 ^ attempt)
            (scanGo cfg env (attempt + 1) fuel)
        else
          ScanRun.single (ScanOutcome.returns (exhaustedFallback true))
    | FetchOutcome.resp code detailMsg parsed =>
        if code = 422 then
          ScanRun.single (ScanOutcome.returns
            { status := Status.suspicious
              message := detailMsg.getD "Invalid URL format."
              risk_score := 0
              details := none })
        else if code = 429 then
          ScanRun.single (ScanOutcome.returns
            { status := Status.suspicious
              message := "Too many requests. Please wait a moment and try again."
              risk_score := 0
              details := none })
        else if code = 401 then
          -- thrown, caught, not retryable, re-thrown unchanged
          ScanRun.single (ScanOutcome.throws
            "Server requires an API key. Set apiKey in app.json extra.")
        else if code = 403 then
          ScanRun.single (ScanOutcome.throws
            "Invalid API key. Check apiKey in app.json extra.")
        else if 500 ≤ code ∧ 0 < fuel then
          -- retryable 5xx with attempts remaining: back off and retry
          ScanRun.afterRetry (cfg.retryDelayMs * 2 ^ attempt)
            (scanGo cfg env (attempt + 1) fuel)
        else if ¬ respOk code then
          -- thrown `Server error: ${status}`, caught, not retryable, re-thrown
          ScanRun.single (ScanOutcome.throws ("Server error: " ++ toString code))
        else
          match parsed with
          | some r => ScanRun.single (ScanOutcome.returns r)
          | none =>
              -- `response.json()` rejected; SyntaxError is not retryable
              ScanRun.single ScanOutcome.throwsParseFailure

/-- `scanURL`: the loop runs attempts `0 … maxRetries`. -/
def scanURL (cfg : ApiConfig) (env : Nat → FetchOutcome) : ScanRun :=
  scanGo cfg env 0 (cfg.maxRetries + 1)

/-! ## The `URL` constructor (WHATWG URL parser, executable model)

`validation.ts` delegates URL parsing to the platform's `new URL(...)`.
The model below follows the WHATWG URL standard's basic parser restricted
to what the claims exercise: scheme scanning, the special/non-special
split, authority extraction, userinfo/host/port splitting, forbidden host
code points, and port validation.  Simplifications (all irrelevant to the
inputs reasoned about here, and noted for honesty): interior tab/newline
stripping, percent-decoding and IDNA in domains, `[...]` IPv6 hosts, and
`file://` empty hosts are not modelled. -/

/-- Whitespace removed by `String.prototype.trim` (ASCII part). -/
def isWs (c : Char) : Bool :=
  c = ' ' || c = '\t' || c = '\n' || c = '\r' || c = '\x0b' || c = '\x0c'

def isLowerAlpha (c : Char) : Bool := 'a' ≤ c && c ≤ 'z'

def isUpperAlpha (c : Char) : Bool := 'A' ≤ c && c ≤ 'Z'

def isAlphaChar (c : Char) : Bool := isLowerAlpha c || isUpperAlpha c

/-- Characters allowed in a scheme after the first: ALPHA / DIGIT / + / - / . -/
def isSchemeChar (c : Char) : Bool :=
  isAlphaChar c || c.isDigit || c = '+' || c = '-' || c = '.'

/-- ASCII lowercasing (what both the scheme/host states of the URL parser
and `toLowerCase` do on ASCII), written as an explicit table so that its
inversion properties are provable by case analysis. -/
def lowerChar (c : Char) : Char :=
  if c = 'A' then 'a' else if c = 'B' then 'b' else if c = 'C' then 'c'
  else if c = 'D' then 'd' else if c = 'E' then 'e' else if c = 'F' then 'f'
  else if c = 'G' then 'g' else if c = 'H' then 'h' else if c = 'I' then 'i'
  else if c = 'J' then 'j' else if c = 'K' then 'k' else if c = 'L' then 'l'
  else if c = 'M' then 'm' else if c = 'N' then 'n' else if c = 'O' then 'o'
  else if c = 'P' then 'p' else if c = 'Q' then 'q' else if c = 'R' then 'r'
  else if c = 'S' then 's' else if c = 'T' then 't' else if c = 'U' then 'u'
  else if c = 'V' then 'v' else if c = 'W' then 'w' else if c = 'X' then 'x'
  else if c = 'Y' then 'y' else if c = 'Z' then 'z' else c

/-- Drop trailing characters satisfying `p`. -/
def dropEndWhile (p : Char → Bool) (l : List Char) : List Char :=
  (l.reverse.dropWhile p).reverse

/-- `String.prototype.trim` on the character list. -/
def trimL (l : List Char) : List Char :=
  dropEndWhile isWs (l.dropWhile isWs)

/-- `String.prototype.startsWith`. -/
def startsWithL (p l : List Char) : Bool := l.take p.length == p

/-- The result of a successful `new URL(...)`: the fields `validation.ts`
reads (`protocol` without its colon, and `hostname`). -/
structure URLModel where
  scheme : List Char
  hostname : List Char
deriving DecidableEq, Repr

/-- Scheme state: scan scheme characters (lowercasing as the parser does)
up to the terminating colon. -/
def schemeScan (acc : List Char) : List Char → Option (List Char × List Char)
  | [] => none
  | c :: r =>
      if c = ':' then some (acc.reverse, r)
      else if isSchemeChar c then schemeScan (lowerChar c :: acc) r
      else none

/-- Parse a leading `scheme:`; the first character must be ALPHA. -/
def parseSchemeL : List Char → Option (List Char × List Char)
  | [] => none
  | c :: r => if isAlphaChar c then schemeScan [lowerChar c] r else none

/-- The special schemes of the WHATWG standard. -/
def specialSchemes : List (List Char) :=
  ["http".data, "https".data, "ws".data, "wss".data, "ftp".data, "file".data]

/-- Authority terminators for special schemes (`\` counts). -/
def authEndSpecialChars : List Char := ['/', '\\', '?', '#']

def isAuthEndSpecial (c : Char) : Bool := authEndSpecialChars.contains c

/-- Authority terminators for non-special schemes. -/
def authEndOpaqueChars : List Char := ['/', '?', '#']

def isAuthEndOpaque (c : Char) : Bool := authEndOpaqueChars.contains c

/-- Forbidden host code points. -/
def forbiddenHostChars : List Char :=
  ['\x00', '\t', '\n', '\r', ' ', '#', '/', ':', '<', '>', '?', '@',
   '[', '\\', ']', '^', '|']

def forbiddenHostChar (c : Char) : Bool := forbiddenHostChars.contains c

/-- The host-port part of an authority: everything after the last `@`. -/
def afterLastAt (l : List Char) : List Char :=
  (l.reverse.takeWhile (fun c => c ≠ '@')).reverse

/-- Host: up to the first `:` of the host-port part. -/
def hostPart (hp : List Char) : List Char := hp.takeWhile (fun c => c ≠ ':')

/-- Port: after the first `:` of the host-port part. -/
def portPart (hp : List Char) : List Char :=
  (hp.dropWhile (fun c => c ≠ ':')).drop 1

def portVal (p : List Char) : Nat :=
  p.foldl (fun n c => 10 * n + (c.toNat - 48)) 0

/-- Port state: digits only; empty is allowed; value at most 65535. -/
def portOkay (p : List Char) : Bool :=
  p.all Char.isDigit && (p.isEmpty || portVal p ≤ 65535)

/-- After `scheme:` for a special scheme: skip slashes, read the
authority, split off userinfo and port, validate the (domain) host. -/
def parseSpecialRest (rest : List Char) : Option (List Char) :=
  let afterSlashes := rest.dropWhile (fun c => c = '/' || c = '\\')
  let auth := afterSlashes.takeWhile (fun c => !(isAuthEndSpecial c))
  let hp := afterLastAt auth
  let host := hostPart hp
  let port := portPart hp
  if host.isEmpty then none
  else if host.any forbiddenHostChar then none
  else if portOkay port then some (host.map lowerChar)
  else none

/-- After `scheme:` for a non-special scheme: `//` introduces an opaque
host (which rejects forbidden host code points); anything else is an
opaque path, which always parses and has an empty hostname. -/
def parseOpaqueRest : List Char → Option (List Char)
  | '/' :: '/' :: r =>
      let auth := r.takeWhile (fun c => !(isAuthEndOpaque c))
      let hp := afterLastAt auth
      let host := hostPart hp
      let port := portPart hp
      if host.any forbiddenHostChar then none
      else if portOkay port then some host
      else none
  | _ => some []

/-- `new URL(s)` (absolute, no base): `none` means the constructor throws. -/
def parseURLL (l : List Char) : Option URLModel :=
  match parseSchemeL l with
  | none => none
  | some (sch, rest) =>
      if sch ∈ specialSchemes then
        (parseSpecialRest rest).map (fun h => URLModel.mk sch h)
      else
        (parseOpaqueRest rest).map (fun h => URLModel.mk sch h)

def parseURL (s : String) : Option URLModel := parseURLL s.data

/-! ## `validation.ts` -/

/-- `PayloadType` from `validation.ts`. -/
inductive PayloadType where
  | url
  | wifi
  | phone
  | sms
  | email
  | vcard
  | geo
  | text
deriving DecidableEq, Repr

/-- `isURL` from `validation.ts`: try `new URL(trimmed)` and accept only
http/https; on a parse failure, try `new URL("https://" + trimmed)` and
require a dot in the hostname. -/
def isURLL (text : List Char) : Bool :=
  if text.isEmpty then false
  else
    let trimmed := trimL text
    match parseURLL trimmed with
    | some u => u.scheme == "http".data || u.scheme == "https".data
    | none =>
        match parseURLL ("https://".data ++ trimmed) with
        | some u => u.hostname.contains '.'
        | none => false

/-- `detectPayloadType` from `validation.ts`: well-known scheme checks in
source order, then the URL check, else text. -/
def detectPayloadTypeL (l : List Char) : PayloadType :=
  if l.isEmpty then PayloadType.text
  else
    let trimmed := trimL l
    let lower := trimmed.map lowerChar
    if startsWithL "wifi:".data lower then PayloadType.wifi
    else if startsWithL "tel:".data lower then PayloadType.phone
    else if startsWithL "sms:".data lower || startsWithL "smsto:".data lower then
      PayloadType.sms
    else if startsWithL "mailto:".data lower || startsWithL "matmsg:".data lower then
      PayloadType.email
    else if startsWithL "begin:vcard".data lower then PayloadType.vcard
    else if startsWithL "geo:".data lower then PayloadType.geo
    else if isURLL trimmed then PayloadType.url
    else PayloadType.text

def detectPayloadType (s : String) : PayloadType := detectPayloadTypeL s.data

def isURL (s : String) : Bool := isURLL s.data

/-! ## `ScanResultView.tsx` — risk factor rendering

A React child placed inside a `<Text>` element is either a string (valid)
or some other object (invalid as a text child; React Native throws
"Objects are not valid as a React child").  The two screens render one
risk-factor row each: `ScanResultView.tsx` line 104 interpolates the
factor value itself (`{factor}`), `history-detail.tsx` line 215
interpolates `{f.message}`. -/

inductive JSVal where
  | str (s : String)
  | obj (f : RiskFactor)
deriving DecidableEq, Repr

/-- The `<Text>` child of the factor row in `ScanResultView.tsx`:
`<Text style={styles.factorText}>{factor}</Text>` renders the factor value
itself.  With the structured `RiskFactor` declared by `apiService.ts`
(which this component imports), that child is the object. -/
def scanResultViewFactorChild (f : RiskFactor) : JSVal := JSVal.obj f

/-- The `<Text>` child of the factor row in `history-detail.tsx`:
`<Text style={styles.factorMessage}>{f.message}</Text>`. -/
def historyDetailFactorChild (f : RiskFactor) : JSVal := JSVal.str f.message

/-- Whether a child value is valid inside a `<Text>` element. -/
def isValidTextChild : JSVal → Bool
  | JSVal.str _ => true
  | JSVal.obj _ => false

/-- The children `ScanResultView` renders for `details.risk_factors`. -/
def scanResultViewFactorChildren (factors : List RiskFactor) : List JSVal :=
  factors.map scanResultViewFactorChild

/-! ## Auxiliary observations on fetch outcomes -/

/-- The `ScanResult` produced by `scanURL`'s exhausted-retries tail, as a
function of the final transient failure (`isTimeout` is true exactly for
the `AbortError`). -/
def transientFallbackFor : FetchOutcome → ScanResult
  | FetchOutcome.timeout => exhaustedFallback true
  | _ => exhaustedFallback false

/-- Status code of a response outcome (0 for non-responses). -/
def respCode : FetchOutcome → Nat
  | FetchOutcome.resp c _ _ => c
  | _ => 0

/-- The outcome is an HTTP response with status at least 500. -/
def isServer5xx (o : FetchOutcome) : Prop :=
  match o with
  | FetchOutcome.resp c _ _ => 500 ≤ c
  | _ => False

/-- The spec's characterisation of when a payload is classified `url`
(`C5`): the trimmed string either parses as a URL with scheme http or
https, or — its own parse failing — parses after prepending `https://`
with a hostname containing a dot. -/
def specURLCondition (t : List Char) : Prop :=
  (∃ u, parseURLL t = some u ∧
    (u.scheme = "http".data ∨ u.scheme = "https".data)) ∨
  (parseURLL t = none ∧
    ∃ u, parseURLL ("https://".data ++ t) = some u ∧
      u.hostname.contains '.' = true)

/-! # Theorems -/

/-! ## Character- and list-level helper lemmas for the URL model -/

/-- `lowerChar` either fixes its argument or maps an uppercase letter to
a lowercase one. -/
theorem lowerChar_spec (c : Char) :
    lowerChar c = c ∨
    (isUpperAlpha c = true ∧ isLowerAlpha (lowerChar c) = true ∧
      isAlphaChar c = true) := by
  unfold lowerChar
  by_cases hA : c = 'A'
  · subst hA; decide
  rw [if_neg hA]
  by_cases hB : c = 'B'
  · subst hB; decide
  rw [if_neg hB]
  by_cases hC : c = 'C'
  · subst hC; decide
  rw [if_neg hC]
  by_cases hD : c = 'D'
  · subst hD; decide
  rw [if_neg hD]
  by_cases hE : c = 'E'
  · subst hE; decide
  rw [if_neg hE]
  by_cases hF : c = 'F'
  · subst hF; decide
  rw [if_neg hF]
  by_cases hG : c = 'G'
  · subst hG; decide
  rw [if_neg hG]
  by_cases hH : c = 'H'
  · subst hH; decide
  rw [if_neg hH]
  by_cases hI : c = 'I'
  · subst hI; decide
  rw [if_neg hI]
  by_cases hJ : c = 'J'
  · subst hJ; decide
  rw [if_neg hJ]
  by_cases hK : c = 'K'
  · subst hK; decide
  rw [if_neg hK]
  by_cases hL : c = 'L'
  · subst hL; decide
  rw [if_neg hL]
  by_cases hM : c = 'M'
  · subst hM; decide
  rw [if_neg hM]
  by_cases hN : c = 'N'
  · subst hN; decide
  rw [if_neg hN]
  by_cases hO : c = 'O'
  · subst hO; decide
  rw [if_neg hO]
  by_cases hP : c = 'P'
  · subst hP; decide
  rw [if_neg hP]
  by_cases hQ : c = 'Q'
  · subst hQ; decide
  rw [if_neg hQ]
  by_cases hR : c = 'R'
  · subst hR; decide
  rw [if_neg hR]
  by_cases hS : c = 'S'
  · subst hS; decide
  rw [if_neg hS]
  by_cases hT : c = 'T'
  · subst hT; decide
  rw [if_neg hT]
  by_cases hU : c = 'U'
  · subst hU; decide
  rw [if_neg hU]
  by_cases hV : c = 'V'
  · subst hV; decide
  rw [if_neg hV]
  by_cases hW : c = 'W'
  · subst hW; decide
  rw [if_neg hW]
  by_cases hX : c = 'X'
  · subst hX; decide
  rw [if_neg hX]
  by_cases hY : c = 'Y'
  · subst hY; decide
  rw [if_neg hY]
  by_cases hZ : c = 'Z'
  · subst hZ; decide
  rw [if_neg hZ]
  exact Or.inl rfl

/-- A character whose ASCII-lowered form is a lowercase letter is a
letter. -/
theorem alphaChar_of_lowerChar {c x : Char} (hx : isLowerAlpha x = true)
    (h : lowerChar c = x) : isAlphaChar c = true := by
  rcases lowerChar_spec c with hcc | ⟨_, _, ha⟩
  · rw [hcc] at h
    subst h
    simp [isAlphaChar, hx]
  · exact ha

/-- Only `:` lowers to `:`. -/
theorem colon_of_lowerChar {c : Char} (h : lowerChar c = ':') : c = ':' := by
  rcases lowerChar_spec c with hcc | ⟨_, hl, _⟩
  · rw [hcc] at h
    exact h
  · rw [h] at hl
    exact absurd hl (by decide)

/-- Letters are not scheme terminators. -/
theorem ne_colon_of_alpha {c : Char} (h : isAlphaChar c = true) : ¬ (c = ':') := by
  intro hc; subst hc; exact absurd h (by decide)

/-- Letters are not `@`. -/
theorem ne_at_of_alpha {c : Char} (h : isAlphaChar c = true) : ¬ (c = '@') := by
  intro hc; subst hc; exact absurd h (by decide)

/-- Letters are scheme characters. -/
theorem schemeChar_of_alpha {c : Char} (h : isAlphaChar c = true) :
    isSchemeChar c = true := by
  simp [isSchemeChar, h]

/-- Letters do not terminate a special-scheme authority. -/
theorem authEndSpecial_false_of_alpha {c : Char} (h : isAlphaChar c = true) :
    isAuthEndSpecial c = false := by
  cases hc : isAuthEndSpecial c
  · rfl
  · exfalso
    have hmem : c ∈ authEndSpecialChars := by
      simpa [isAuthEndSpecial] using hc
    fin_cases hmem <;> exact absurd h (by decide)

/-- Letters are not forbidden host code points. -/
theorem forbiddenHost_false_of_alpha {c : Char} (h : isAlphaChar c = true) :
    forbiddenHostChar c = false := by
  cases hc : forbiddenHostChar c
  · rfl
  · exfalso
    have hmem : c ∈ forbiddenHostChars := by
      simpa [forbiddenHostChar] using hc
    fin_cases hmem <;> exact absurd h (by decide)

/-- Letters are not slashes. -/
theorem ne_slash_of_alpha {c : Char} (h : isAlphaChar c = true) :
    (c = '/' || c = '\\') = false := by
  cases hc : (c = '/' || c = '\\')
  · rfl
  · exfalso
    have : c = '/' ∨ c = '\\' := by simpa using hc
    rcases this with h1 | h1 <;> subst h1 <;> exact absurd h (by decide)

/-- A list of lowercase letters contains no dot. -/
theorem contains_dot_false_of_lower {p : List Char}
    (hp : ∀ c ∈ p, isLowerAlpha c = true) : p.contains '.' = false := by
  cases hc : p.contains '.'
  · rfl
  · exfalso
    have hmem : '.' ∈ p := by simpa using hc
    exact absurd (hp '.' hmem) (by decide)

/-- `takeWhile` walks through a satisfied chunk. -/
theorem takeWhile_append_sat (q : Char → Bool) (l1 l2 : List Char)
    (h : ∀ c ∈ l1, q c = true) :
    (l1 ++ l2).takeWhile q = l1 ++ l2.takeWhile q := by
  induction l1 with
  | nil => simp
  | cons a t ih =>
      have ha := h a (List.mem_cons_self a t)
      simp [List.takeWhile_cons, ha,
        ih (fun c hc => h c (List.mem_cons_of_mem a hc))]

/-- `dropWhile` walks through a satisfied chunk. -/
theorem dropWhile_append_sat (q : Char → Bool) (l1 l2 : List Char)
    (h : ∀ c ∈ l1, q c = true) :
    (l1 ++ l2).dropWhile q = l2.dropWhile q := by
  induction l1 with
  | nil => simp
  | cons a t ih =>
      have ha := h a (List.mem_cons_self a t)
      simp [List.dropWhile_cons, ha,
        ih (fun c hc => h c (List.mem_cons_of_mem a hc))]

/-- `takeWhile` keeps an entirely satisfied list. -/
theorem takeWhile_all (q : Char → Bool) (l : List Char)
    (h : ∀ c ∈ l, q c = true) : l.takeWhile q = l := by
  have := takeWhile_append_sat q l [] h
  simpa using this

/-- The head surviving `dropWhile` fails the predicate. -/
theorem dropWhile_head_false (q : Char → Bool) :
    ∀ (l : List Char) (c : Char) (r : List Char),
      l.dropWhile q = c :: r → q c = false := by
  intro l
  induction l with
  | nil => intro c r h; simp at h
  | cons a t ih =>
      intro c r h
      by_cases ha : q a
      · rw [List.dropWhile_cons_of_pos ha] at h
        exact ih c r h
      · rw [List.dropWhile_cons_of_neg ha] at h
        cases h
        simpa using ha

/-- `dropWhile` is idempotent. -/
theorem dropWhile_idem (q : Char → Bool) (l : List Char) :
    (l.dropWhile q).dropWhile q = l.dropWhile q := by
  cases hd : l.dropWhile q with
  | nil => simp
  | cons c r =>
      have hc := dropWhile_head_false q l c r hd
      simp [List.dropWhile_cons, hc]

/-- A list is its end-trimmed part followed by the trimmed-off tail. -/
theorem dropEndWhile_decomp (q : Char → Bool) (l : List Char) :
    dropEndWhile q l ++ (l.reverse.takeWhile q).reverse = l := by
  unfold dropEndWhile
  rw [← List.reverse_append, List.takeWhile_append_dropWhile, List.reverse_reverse]

/-- Leading-trim is stable under a subsequent end-trim. -/
theorem dropWhile_dropEndWhile (q : Char → Bool) (l : List Char) :
    (dropEndWhile q (l.dropWhile q)).dropWhile q =
      dropEndWhile q (l.dropWhile q) := by
  cases hA : dropEndWhile q (l.dropWhile q) with
  | nil => simp
  | cons c r =>
      have hd := dropEndWhile_decomp q (l.dropWhile q)
      rw [hA] at hd
      have hql : l.dropWhile q =
          c :: (r ++ ((l.dropWhile q).reverse.takeWhile q).reverse) := by
        rw [← List.cons_append]
        exact hd.symm
      have hc : q c = false := dropWhile_head_false q l c _ hql
      simp [List.dropWhile_cons, hc]

/-- `dropEndWhile` is idempotent. -/
theorem dropEndWhile_idem (q : Char → Bool) (l : List Char) :
    dropEndWhile q (dropEndWhile q l) = dropEndWhile q l := by
  unfold dropEndWhile
  rw [List.reverse_reverse, dropWhile_idem]

/-- `trim` is idempotent — the second trim inside `isURL` is a no-op. -/
theorem trimL_idem (l : List Char) : trimL (trimL l) = trimL l := by
  unfold trimL
  rw [dropWhile_dropEndWhile, dropEndWhile_idem]

/-- Without any `@`, the host-port part is the whole authority. -/
theorem afterLastAt_no_at (l : List Char) (h : ∀ c ∈ l, ¬ (c = '@')) :
    afterLastAt l = l := by
  unfold afterLastAt
  rw [takeWhile_all _ _ (fun c hc => by
    simpa using h c (List.mem_reverse.mp hc))]
  exact List.reverse_reverse l

/-- Pull back a prefix of the lowered list to a decomposition of the
original list. -/
theorem map_lower_take_decomp :
    ∀ (q t : List Char), (t.map lowerChar).take q.length = q →
      ∃ u w, t = u ++ w ∧ u.map lowerChar = q ∧ u.length = q.length := by
  intro q
  induction q with
  | nil => intro t _; exact ⟨[], t, by simp, by simp, by simp⟩
  | cons x q' ih =>
      intro t h
      cases t with
      | nil => simp at h
      | cons c t' =>
          simp only [List.map_cons, List.length_cons, List.take_succ_cons,
            List.cons.injEq] at h
          obtain ⟨u', w, ht, hu, hlen⟩ := ih t' h.2
          exact ⟨c :: u', w, by rw [List.cons_append, ← ht],
            by simp [hu, h.1], by simp [hlen]⟩

/-- A string whose lowering starts with `p ++ ":"` splits as a chunk
lowering to `p`, the literal colon, and a remainder. -/
theorem startsWith_scheme_decomp (t p : List Char)
    (h : startsWithL (p ++ [':']) (t.map lowerChar) = true) :
    ∃ u w, t = u ++ ':' :: w ∧ u.map lowerChar = p ∧ u.length = p.length := by
  have heq : (t.map lowerChar).take (p.length + 1) = p ++ [':'] := by
    have := h
    simp only [startsWithL, List.length_append, List.length_cons,
      List.length_nil, beq_iff_eq] at this
    simpa using this
  have heq2 : (t.map lowerChar).take p.length = p := by
    have h2 := congrArg (List.take p.length) heq
    rw [List.take_take] at h2
    rw [min_eq_left (by omega)] at h2
    rw [List.take_append_of_le_length (le_refl _), List.take_length] at h2
    exact h2
  obtain ⟨u, w, ht, hu, hlen⟩ := map_lower_take_decomp p t heq2
  subst ht
  rw [List.map_append] at heq
  have hlen2 : (u.map lowerChar).length = p.length := by simp [hlen]
  rw [show p.length + 1 = (u.map lowerChar).length + 1 by rw [hlen2],
    List.take_append] at heq
  rw [hu] at heq
  have htail : (w.map lowerChar).take 1 = [':'] := List.append_cancel_left heq
  cases w with
  | nil => simp at htail
  | cons c w' =>
      simp only [List.map_cons, List.take_succ_cons, List.take_zero,
        List.cons.injEq] at htail
      have hc : c = ':' := colon_of_lowerChar htail.1
      subst hc
      exact ⟨u, w', rfl, hu, hlen⟩

/-- The scheme scanner walks a chunk of scheme characters up to the
colon, lowercasing as it goes. -/
theorem schemeScan_lower (v : List Char) :
    ∀ (u acc : List Char),
      (∀ c ∈ u, isLowerAlpha (lowerChar c) = true) →
      schemeScan acc (u ++ ':' :: v) = some (acc.reverse ++ u.map lowerChar, v) := by
  intro u
  induction u with
  | nil => intro acc _; simp [schemeScan]
  | cons c u' ih =>
      intro acc h
      have hc : isLowerAlpha (lowerChar c) = true := h c (List.mem_cons_self c u')
      have halpha : isAlphaChar c = true := alphaChar_of_lowerChar hc rfl
      have hcolon : ¬ (c = ':') := ne_colon_of_alpha halpha
      have hscheme : isSchemeChar c = true := schemeChar_of_alpha halpha
      rw [List.cons_append]
      rw [show schemeScan acc (c :: (u' ++ ':' :: v)) =
        if c = ':' then some (acc.reverse, u' ++ ':' :: v)
        else if isSchemeChar c then schemeScan (lowerChar c :: acc) (u' ++ ':' :: v)
        else none from rfl]
      rw [if_neg hcolon, if_pos hscheme]
      rw [ih (lowerChar c :: acc) (fun d hd => h d (List.mem_cons_of_mem c hd))]
      simp

/-- `parseSchemeL` on a string that lowers to `p ++ ":" ++ w` returns the
scheme `p` and remainder `w`. -/
theorem parseSchemeL_lower_start (p w u : List Char) (hp : p ≠ [])
    (hu : u.map lowerChar = p)
    (hpl : ∀ c ∈ p, isLowerAlpha c = true) :
    parseSchemeL (u ++ ':' :: w) = some (p, w) := by
  have hul : ∀ c ∈ u, isLowerAlpha (lowerChar c) = true := by
    intro c hc
    exact hpl (lowerChar c) (hu ▸ List.mem_map_of_mem lowerChar hc)
  cases u with
  | nil => exact absurd hu.symm (by simpa using hp)
  | cons c u' =>
      have hc : isLowerAlpha (lowerChar c) = true :=
        hul c (List.mem_cons_self c u')
      have halpha : isAlphaChar c = true := alphaChar_of_lowerChar hc rfl
      rw [List.cons_append]
      rw [show parseSchemeL (c :: (u' ++ ':' :: w)) =
        if isAlphaChar c = true then schemeScan [lowerChar c] (u' ++ ':' :: w)
        else none from rfl]
      rw [if_pos halpha]
      rw [schemeScan_lower w u' [lowerChar c]
        (fun d hd => hul d (List.mem_cons_of_mem c hd))]
      simp [← hu]

/-- A successful parse carries the scanned scheme. -/
theorem parseURLL_scheme_eq (t sch rest : List Char) (u : URLModel)
    (hs : parseSchemeL t = some (sch, rest)) (h : parseURLL t = some u) :
    u.scheme = sch := by
  unfold parseURLL at h
  rw [hs] at h
  have h' : (if sch ∈ specialSchemes then
        Option.map (fun hh => URLModel.mk sch hh) (parseSpecialRest rest)
      else Option.map (fun hh => URLModel.mk sch hh) (parseOpaqueRest rest)) =
      some u := h
  by_cases hsp : sch ∈ specialSchemes
  · rw [if_pos hsp] at h'
    cases hr : parseSpecialRest rest <;> rw [hr] at h' <;> simp at h'
    rw [← h']
  · rw [if_neg hsp] at h'
    cases hr : parseOpaqueRest rest <;> rw [hr] at h' <;> simp at h'
    rw [← h']

/-- A failing non-special parse can only come from the `//` branch. -/
theorem parseOpaqueRest_none_shape (rest : List Char)
    (h : parseOpaqueRest rest = none) : ∃ r, rest = '/' :: '/' :: r := by
  rcases rest with _ | ⟨c1, _ | ⟨c2, r⟩⟩
  · exact absurd h (by simp [parseOpaqueRest])
  · exact absurd h (by simp [parseOpaqueRest])
  · unfold parseOpaqueRest at h
    split at h
    · rename_i r' heq
      injection heq with h1 hrest
      injection hrest with h2 hrest2
      exact ⟨r', by rw [h1, h2, hrest2]⟩
    · simp at h

/-- Prepending `https://` to a failing `scheme://…` string parses with
host equal to the (lowered) scheme label: the authority of the new URL
ends at the first slash, which is the one right after the original
scheme's colon. -/
theorem parseURLL_https_prepend (p u w : List Char) (hp : p ≠ [])
    (hpl : ∀ c ∈ p, isLowerAlpha c = true)
    (hu : u.map lowerChar = p) :
    parseURLL ("https://".data ++ (u ++ ':' :: '/' :: '/' :: w)) =
      some (URLModel.mk "https".data p) := by
  have halist : ∀ c ∈ u, isAlphaChar c = true := fun c hc =>
    alphaChar_of_lowerChar (hpl _ (hu ▸ List.mem_map_of_mem lowerChar hc)) rfl
  -- the scheme part
  have hsch : parseSchemeL ("https://".data ++ (u ++ ':' :: '/' :: '/' :: w)) =
      some ("https".data, '/' :: '/' :: (u ++ ':' :: '/' :: '/' :: w)) := by
    have hstep := schemeScan_lower ('/' :: '/' :: (u ++ ':' :: '/' :: '/' :: w))
      "ttps".data ['h'] (by decide)
    calc parseSchemeL ("https://".data ++ (u ++ ':' :: '/' :: '/' :: w))
        = schemeScan ['h']
            ("ttps".data ++ ':' :: ('/' :: '/' :: (u ++ ':' :: '/' :: '/' :: w))) := rfl
      _ = some (['h'].reverse ++ "ttps".data.map lowerChar,
            '/' :: '/' :: (u ++ ':' :: '/' :: '/' :: w)) := hstep
      _ = some ("https".data, '/' :: '/' :: (u ++ ':' :: '/' :: '/' :: w)) := rfl
  -- the authority part
  rcases hu0 : u with _ | ⟨c0, u0⟩
  · exact absurd (by rw [hu0] at hu; simpa using hu.symm) hp
  rw [← hu0]
  have hdrop : ('/' :: '/' :: (u ++ ':' :: '/' :: '/' :: w)).dropWhile
      (fun c => c = '/' || c = '\\') = u ++ ':' :: '/' :: '/' :: w := by
    rw [List.dropWhile_cons_of_pos (by decide), List.dropWhile_cons_of_pos (by decide)]
    rw [hu0, List.cons_append]
    exact List.dropWhile_cons_of_neg (by
      rw [show ((fun c => c = '/' || c = '\\') c0 = true) =
        ((c0 = '/' || c0 = '\\') = true) from rfl]
      rw [ne_slash_of_alpha (halist c0 (by rw [hu0]; exact List.mem_cons_self c0 u0))]
      simp)
  have hassoc : u ++ ':' :: '/' :: '/' :: w = (u ++ [':']) ++ '/' :: '/' :: w := by
    simp
  have hsat : ∀ c ∈ u ++ [':'], (!(isAuthEndSpecial c)) = true := by
    intro c hc
    rcases List.mem_append.mp hc with hcu | hcc
    · rw [authEndSpecial_false_of_alpha (halist c hcu)]
      rfl
    · have : c = ':' := by simpa using hcc
      subst this
      decide
  have hauth : (u ++ ':' :: '/' :: '/' :: w).takeWhile
      (fun c => !(isAuthEndSpecial c)) = u ++ [':'] := by
    rw [hassoc, takeWhile_append_sat _ _ _ hsat]
    rw [List.takeWhile_cons_of_neg (by decide)]
    simp
  have hat : afterLastAt (u ++ [':']) = u ++ [':'] := by
    refine afterLastAt_no_at _ (fun c hc => ?_)
    rcases List.mem_append.mp hc with hcu | hcc
    · exact ne_at_of_alpha (halist c hcu)
    · have : c = ':' := by simpa using hcc
      subst this
      decide
  have hcne : ∀ c ∈ u, decide (c ≠ ':') = true := by
    intro c hc
    simpa using ne_colon_of_alpha (halist c hc)
  have hhost : hostPart (u ++ [':']) = u := by
    unfold hostPart
    rw [takeWhile_append_sat _ _ _ hcne]
    rw [List.takeWhile_cons_of_neg (by simp)]
    simp
  have hport : portPart (u ++ [':']) = [] := by
    unfold portPart
    rw [dropWhile_append_sat _ _ _ hcne]
    rw [List.dropWhile_cons_of_neg (by simp)]
    rfl
  -- put the pieces together
  unfold parseURLL
  rw [hsch]
  show (if "https".data ∈ specialSchemes then
      Option.map (fun hh => URLModel.mk "https".data hh)
        (parseSpecialRest ('/' :: '/' :: (u ++ ':' :: '/' :: '/' :: w)))
    else Option.map (fun hh => URLModel.mk "https".data hh)
        (parseOpaqueRest ('/' :: '/' :: (u ++ ':' :: '/' :: '/' :: w)))) =
    some (URLModel.mk "https".data p)
  rw [if_pos (by decide)]
  simp only [parseSpecialRest]
  rw [hdrop]
  rw [hauth, hat, hhost, hport]
  have hne : u.isEmpty = false := by
    rw [hu0]
    rfl
  rw [if_neg (by rw [hne]; simp)]
  have hforb : u.any forbiddenHostChar = false := by
    rw [List.any_eq_false]
    intro c hc
    rw [forbiddenHost_false_of_alpha (halist c hc)]
    simp
  rw [if_neg (by rw [hforb]; simp)]
  rw [if_pos (by decide)]
  rw [hu]
  rfl

/-- A payload whose lowered trim starts with a non-special, non-http(s)
scheme label followed by `:` does not satisfy the spec's URL condition:
its own parse (when it succeeds) has the wrong scheme, and the
`https://`-prepended fallback's hostname is the scheme label itself,
which contains no dot. -/
theorem scheme_start_not_url (p : List Char) (hp : p ≠ [])
    (hpl : ∀ c ∈ p, isLowerAlpha c = true)
    (hph : p ≠ "http".data) (hphs : p ≠ "https".data)
    (hps : p ∉ specialSchemes)
    (t : List Char) (h : startsWithL (p ++ [':']) (t.map lowerChar) = true) :
    ¬ specURLCondition t := by
  obtain ⟨u, w, ht, hu, _⟩ := startsWith_scheme_decomp t p h
  subst ht
  have hs : parseSchemeL (u ++ ':' :: w) = some (p, w) :=
    parseSchemeL_lower_start p w u hp hu hpl
  rintro (⟨u', hparse, hhttp⟩ | ⟨hnone, u', hparse, hdot⟩)
  · have hsch := parseURLL_scheme_eq _ _ _ _ hs hparse
    rcases hhttp with h1 | h1
    · rw [hsch] at h1
      exact hph h1
    · rw [hsch] at h1
      exact hphs h1
  · have hop : parseOpaqueRest w = none := by
      unfold parseURLL at hnone
      rw [hs] at hnone
      have h' : (if p ∈ specialSchemes then
            Option.map (fun hh => URLModel.mk p hh) (parseSpecialRest w)
          else Option.map (fun hh => URLModel.mk p hh) (parseOpaqueRest w)) =
          none := hnone
      rw [if_neg hps] at h'
      cases hr : parseOpaqueRest w
      · rfl
      · rw [hr] at h'
        simp at h'
    obtain ⟨r, hw⟩ := parseOpaqueRest_none_shape w hop
    subst hw
    have hfb := parseURLL_https_prepend p u r hp hpl hu
    rw [hfb] at hparse
    injection hparse with hparse
    rw [← hparse] at hdot
    have : p.contains '.' = false := contains_dot_false_of_lower hpl
    rw [show (URLModel.mk "https".data p).hostname = p from rfl] at hdot
    rw [this] at hdot
    exact Bool.false_ne_true hdot

/-- `isURL` on an already-trimmed string decides exactly the spec's URL
condition. -/
theorem isURLL_trim_iff (l : List Char) :
    isURLL (trimL l) = true ↔ specURLCondition (trimL l) := by
  by_cases hte : (trimL l).isEmpty = true
  · have htnil : trimL l = [] := by
      cases htl : trimL l
      · rfl
      · rw [htl] at hte
        simp at hte
    rw [htnil]
    constructor
    · intro h
      exact absurd h (by decide)
    · rintro (⟨u, hu, _⟩ | ⟨_, u, hu, _⟩)
      · rw [show parseURLL [] = none from by decide] at hu
        exact Option.noConfusion hu
      · rw [List.append_nil] at hu
        rw [show parseURLL "https://".data = none from by decide] at hu
        exact Option.noConfusion hu
  · have hunfold : isURLL (trimL l) =
        (match parseURLL (trimL l) with
          | some u => u.scheme == "http".data || u.scheme == "https".data
          | none =>
              match parseURLL ("https://".data ++ trimL l) with
              | some u => u.hostname.contains '.'
              | none => false) := by
      unfold isURLL
      rw [if_neg hte]
      rw [trimL_idem]
    rw [hunfold]
    cases hp : parseURLL (trimL l) with
    | some u =>
        constructor
        · intro h
          have hb : u.scheme = "http".data ∨ u.scheme = "https".data := by
            simpa using h
          exact Or.inl ⟨u, hp, hb⟩
        · rintro (⟨u', hu', hb⟩ | ⟨hnone, _⟩)
          · rw [hp] at hu'
            injection hu' with hu'
            subst hu'
            simpa using hb
          · rw [hp] at hnone
            exact absurd hnone (by simp)
    | none =>
        cases hf : parseURLL ("https://".data ++ trimL l) with
        | some u =>
            constructor
            · intro h
              exact Or.inr ⟨hp, u, hf, h⟩
            · rintro (⟨u', hu', _⟩ | ⟨_, u', hu', hdot⟩)
              · rw [hp] at hu'
                exact absurd hu' (by simp)
              · rw [hf] at hu'
                injection hu' with hu'
                subst hu'
                exact hdot
        | none =>
            constructor
            · intro h
              exact absurd h (by simp)
            · rintro (⟨u', hu', _⟩ | ⟨_, u', hu', _⟩)
              · rw [hp] at hu'
                exact absurd hu' (by simp)
              · rw [hf] at hu'
                exact absurd hu' (by simp)

/-- A starts-with test also passes on any shorter pattern. -/
theorem startsWithL_mono (a b l : List Char) (h : startsWithL (a ++ b) l = true) :
    startsWithL a l = true := by
  simp only [startsWithL, beq_iff_eq, List.length_append] at h ⊢
  have h2 := congrArg (List.take a.length) h
  rw [List.take_take, min_eq_left (by omega)] at h2
  rw [List.take_append_of_le_length (le_refl _), List.take_length] at h2
  exact h2

/-- The classification of a payload at list level, against the spec's URL
condition. -/
theorem detectPayloadTypeL_url_iff (l : List Char) :
    detectPayloadTypeL l = PayloadType.url ↔ specURLCondition (trimL l) := by
  by_cases h0 : l.isEmpty = true
  · have hl : l = [] := by
      cases hll : l
      · rfl
      · rw [hll] at h0
        simp at h0
    subst hl
    constructor
    · intro h
      exact absurd h (by decide)
    · rintro (⟨u, hu, _⟩ | ⟨_, u, hu, _⟩)
      · rw [show parseURLL (trimL []) = none from by decide] at hu
        exact Option.noConfusion hu
      · rw [show trimL [] = [] from rfl, List.append_nil] at hu
        rw [show parseURLL "https://".data = none from by decide] at hu
        exact Option.noConfusion hu
  · by_cases hw : startsWithL "wifi:".data ((trimL l).map lowerChar) = true
    · have hres : detectPayloadTypeL l = PayloadType.wifi := by
        simp only [detectPayloadTypeL]
        rw [if_neg h0, if_pos hw]
      rw [hres]
      refine iff_of_false (by decide) ?_
      exact scheme_start_not_url "wifi".data (by decide) (by decide) (by decide)
        (by decide) (by decide) (trimL l) hw
    by_cases htl : startsWithL "tel:".data ((trimL l).map lowerChar) = true
    · have hres : detectPayloadTypeL l = PayloadType.phone := by
        simp only [detectPayloadTypeL]
        rw [if_neg h0, if_neg hw, if_pos htl]
      rw [hres]
      refine iff_of_false (by decide) ?_
      exact scheme_start_not_url "tel".data (by decide) (by decide) (by decide)
        (by decide) (by decide) (trimL l) htl
    by_cases hsm : (startsWithL "sms:".data ((trimL l).map lowerChar) ||
        startsWithL "smsto:".data ((trimL l).map lowerChar)) = true
    · have hres : detectPayloadTypeL l = PayloadType.sms := by
        simp only [detectPayloadTypeL]
        rw [if_neg h0, if_neg hw, if_neg htl, if_pos hsm]
      rw [hres]
      refine iff_of_false (by decide) ?_
      rcases Bool.or_eq_true_iff.mp hsm with hs1 | hs1
      · exact scheme_start_not_url "sms".data (by decide) (by decide) (by decide)
          (by decide) (by decide) (trimL l) hs1
      · exact scheme_start_not_url "smsto".data (by decide) (by decide) (by decide)
          (by decide) (by decide) (trimL l) hs1
    by_cases hml : (startsWithL "mailto:".data ((trimL l).map lowerChar) ||
        startsWithL "matmsg:".data ((trimL l).map lowerChar)) = true
    · have hres : detectPayloadTypeL l = PayloadType.email := by
        simp only [detectPayloadTypeL]
        rw [if_neg h0, if_neg hw, if_neg htl, if_neg hsm, if_pos hml]
      rw [hres]
      refine iff_of_false (by decide) ?_
      rcases Bool.or_eq_true_iff.mp hml with hs1 | hs1
      · exact scheme_start_not_url "mailto".data (by decide) (by decide) (by decide)
          (by decide) (by decide) (trimL l) hs1
      · exact scheme_start_not_url "matmsg".data (by decide) (by decide) (by decide)
          (by decide) (by decide) (trimL l) hs1
    by_cases hvc : startsWithL "begin:vcard".data ((trimL l).map lowerChar) = true
    · have hres : detectPayloadTypeL l = PayloadType.vcard := by
        simp only [detectPayloadTypeL]
        rw [if_neg h0, if_neg hw, if_neg htl, if_neg hsm, if_neg hml, if_pos hvc]
      rw [hres]
      refine iff_of_false (by decide) ?_
      have hb : startsWithL ("begin".data ++ [':']) ((trimL l).map lowerChar) = true := by
        refine startsWithL_mono ("begin".data ++ [':']) "vcard".data _ ?_
        exact hvc
      exact scheme_start_not_url "begin".data (by decide) (by decide) (by decide)
        (by decide) (by decide) (trimL l) hb
    by_cases hgeo : startsWithL "geo:".data ((trimL l).map lowerChar) = true
    · have hres : detectPayloadTypeL l = PayloadType.geo := by
        simp only [detectPayloadTypeL]
        rw [if_neg h0, if_neg hw, if_neg htl, if_neg hsm, if_neg hml, if_neg hvc,
          if_pos hgeo]
      rw [hres]
      refine iff_of_false (by decide) ?_
      exact scheme_start_not_url "geo".data (by decide) (by decide) (by decide)
        (by decide) (by decide) (trimL l) hgeo
    have hres : detectPayloadTypeL l =
        (if isURLL (trimL l) = true then PayloadType.url else PayloadType.text) := by
      simp only [detectPayloadTypeL]
      rw [if_neg h0, if_neg hw, if_neg htl, if_neg hsm, if_neg hml, if_neg hvc,
        if_neg hgeo]
    rw [hres]
    by_cases hu : isURLL (trimL l) = true
    · rw [if_pos hu]
      exact iff_of_true rfl ((isURLL_trim_iff l).mp hu)
    · rw [if_neg hu]
      exact iff_of_false (by decide) (fun hc => hu ((isURLL_trim_iff l).mpr hc))

/-- **C5.** `detectPayloadType` classifies a payload as `url` exactly when
the spec's rule holds of the trimmed string: it parses with scheme http or
https, or — its own parse failing — parses after prepending `https://`
with a dotted hostname.  Consequently a payload that parses with any other
scheme (tel, mailto, wifi, geo, ftp, javascript, …) is never classified
`url`, and the empty payload is classified `text`. -/
theorem detectPayloadType_url_characterisation (data : String) :
    (detectPayloadType data = PayloadType.url ↔
      specURLCondition (trimL data.data)) ∧
    (∀ u, parseURLL (trimL data.data) = some u →
      ¬ (u.scheme = "http".data) → ¬ (u.scheme = "https".data) →
      detectPayloadType data ≠ PayloadType.url) ∧
    detectPayloadType "" = PayloadType.text := by
  refine ⟨detectPayloadTypeL_url_iff data.data, ?_, by decide⟩
  intro u hu hh hhs hurl
  rcases (detectPayloadTypeL_url_iff data.data).mp hurl with
    ⟨u', hu', hb⟩ | ⟨hnone, _⟩
  · rw [hu] at hu'
    injection hu' with hu'
    subst hu'
    rcases hb with hb | hb
    · exact hh hb
    · exact hhs hb
  · rw [hu] at hnone
    exact Option.noConfusion hnone

/-- Witness for C5: `ftp://example.com` parses with scheme `ftp`, so it is
not classified `url` (it is classified `text`), and `https://example.com`
is classified `url`. -/
theorem detectPayloadType_url_characterisation_witness :
    detectPayloadType "ftp://example.com" ≠ PayloadType.url ∧
    detectPayloadType "https://example.com" = PayloadType.url := by
  constructor
  · exact (detectPayloadType_url_characterisation "ftp://example.com").2.1
      (URLModel.mk "ftp".data "example.com".data) (by decide) (by decide) (by decide)
  · exact (detectPayloadType_url_characterisation "https://example.com").1.mpr
      (Or.inl ⟨URLModel.mk "https".data "example.com".data, by decide, by decide⟩)

/-- **C1.** The client's declared risk-factor type is the structured
object (see `RiskFactor`), and `history-detail.tsx` renders it as such,
but `ScanResultView.tsx` line 104 renders the factor value itself as the
`<Text>` child — the legacy plain-string handling.  Evaluated at the
failing input (a single structured `ip_literal_url` factor): the child
`ScanResultView` produces is the object, which is not a valid text child,
while `history-detail.tsx` produces the string child the structured form
calls for. -/
theorem scanResultView_renders_factor_object_not_message :
    scanResultViewFactorChildren
        [RiskFactor.mk "ip_literal_url" "URL uses a raw IP address" "high" none] =
      [JSVal.obj (RiskFactor.mk "ip_literal_url" "URL uses a raw IP address" "high" none)] ∧
    isValidTextChild
        (scanResultViewFactorChild
          (RiskFactor.mk "ip_literal_url" "URL uses a raw IP address" "high" none)) = false ∧
    historyDetailFactorChild
        (RiskFactor.mk "ip_literal_url" "URL uses a raw IP address" "high" none) =
      JSVal.str "URL uses a raw IP address" ∧
    isValidTextChild
        (historyDetailFactorChild
          (RiskFactor.mk "ip_literal_url" "URL uses a raw IP address" "high" none)) = true :=
  ⟨rfl, rfl, rfl, rfl⟩

/-- **C10.** After `addToHistory`, the stored history has at most
`MAX_ITEMS = 100` entries, its first entry is the new item, and the rest
are the previously stored items in their prior order, truncated to the
first 99 (so entries beyond 100 are dropped). -/
theorem addToHistory_bounded_prepend (current : List HistoryItem) (item : HistoryItem) :
    (addToHistory current item).length ≤ MAX_ITEMS ∧
    (addToHistory current item).head? = some item ∧
    (addToHistory current item).tail = current.take (MAX_ITEMS - 1) := by
  refine ⟨?_, ?_, ?_⟩
  · simp only [addToHistory, List.length_take]
    exact min_le_left _ _
  · simp [addToHistory, MAX_ITEMS, List.take_succ_cons]
  · simp [addToHistory, MAX_ITEMS, List.take_succ_cons]

/-- **C4.** `RiskScoreRing`'s score-only classification (no server
status): scores below 0.30 are labelled `Safe` in the success (green)
colour, scores in [0.30, 0.60) are labelled `Suspicious` in the warning
colour, and scores at least 0.60 are labelled `Threat Detected` in the
error (danger) colour. -/
theorem riskScoreRing_score_thresholds (s : ℚ) (h0 : 0 ≤ s) (h1 : s ≤ 1) :
    (s < 0.30 →
      getColor none (some s) = scannerColors.success ∧
      getLabel none (some s) = "Safe") ∧
    (0.30 ≤ s → s < 0.60 →
      getColor none (some s) = scannerColors.warning ∧
      getLabel none (some s) = "Suspicious") ∧
    (0.60 ≤ s →
      getColor none (some s) = scannerColors.error ∧
      getLabel none (some s) = "Threat Detected") := by
  refine ⟨fun h => ?_, fun h h' => ?_, fun h => ?_⟩ <;>
    constructor <;>
      (simp only [getColor, getLabel, reduceCtorEq, if_false]
       split_ifs <;> first | rfl | (exfalso; linarith))

/-- Witness for C4: the theorem applied at the concrete score 0.45. -/
theorem riskScoreRing_score_thresholds_witness :
    getColor none (some (45 / 100 : ℚ)) = scannerColors.warning ∧
    getLabel none (some (45 / 100 : ℚ)) = "Suspicious" :=
  (riskScoreRing_score_thresholds (45 / 100) (by norm_num) (by norm_num)).2.1
    (by norm_num) (by norm_num)

/-- Inserting into a list with `orderedInsert` never moves an element past
another element of the same severity rank: the sub-list at each severity
rank is preserved.  (Skipped elements satisfy `¬ sevLE x b`, i.e. have a
strictly smaller rank than `x`, hence a different rank.) -/
theorem filter_rank_orderedInsert (x : RiskFactor) (l : List RiskFactor) (k : Nat) :
    (List.orderedInsert sevLE x l).filter
        (fun f => severityOrder f.severity == k) =
      (if severityOrder x.severity == k
        then x :: l.filter (fun f => severityOrder f.severity == k)
        else l.filter (fun f => severityOrder f.severity == k)) := by
  induction l with
  | nil =>
      by_cases hk : severityOrder x.severity = k <;>
        simp [List.orderedInsert, List.filter_cons, beq_iff_eq, hk]
  | cons b t ih =>
      by_cases hxb : sevLE x b
      · by_cases hk : severityOrder x.severity = k <;>
          simp [List.orderedInsert, hxb, List.filter_cons, beq_iff_eq, hk]
      · have hlt : severityOrder b.severity < severityOrder x.severity := by
          simpa [sevLE, Nat.not_le] using hxb
        by_cases hk : severityOrder x.severity = k
        · have hbk : ¬ (severityOrder b.severity = k) := by omega
          simp [List.orderedInsert, hxb, List.filter_cons, beq_iff_eq, hk, hbk, ih]
        · by_cases hbk : severityOrder b.severity = k <;>
            simp [List.orderedInsert, hxb, List.filter_cons, beq_iff_eq, hk, hbk, ih]

/-- Each severity rank's sub-list survives `sortBySeverity` unchanged:
ties are kept in insertion order (the sort is stable). -/
theorem filter_rank_sortBySeverity (l : List RiskFactor) (k : Nat) :
    (sortBySeverity l).filter (fun f => severityOrder f.severity == k) =
      l.filter (fun f => severityOrder f.severity == k) := by
  induction l with
  | nil => rfl
  | cons a t ih =>
      have hstep : sortBySeverity (a :: t) =
          List.orderedInsert sevLE a (sortBySeverity t) := rfl
      rw [hstep, filter_rank_orderedInsert]
      by_cases hk : severityOrder a.severity = k <;>
        simp [List.filter_cons, beq_iff_eq, hk, ih]

/-- **C7 (amended).** `sortBySeverity` returns a permutation of its input
that is sorted by severity descending (critical, high, medium, low, then
unknown severities), and it is stable: elements of equal severity rank
keep their insertion order.  There is no lexicographic tie-break by
`code`. -/
theorem sortBySeverity_sorted_stable_perm (factors : List RiskFactor) :
    (sortBySeverity factors).Perm factors ∧
    List.Sorted sevLE (sortBySeverity factors) ∧
    (∀ k : Nat,
      (sortBySeverity factors).filter (fun f => severityOrder f.severity == k) =
        factors.filter (fun f => severityOrder f.severity == k)) :=
  ⟨List.perm_insertionSort sevLE factors,
   List.sorted_insertionSort sevLE factors,
   fun k => filter_rank_sortBySeverity factors k⟩

/-- **C7 (counterexample).** Two factors of equal severity whose codes are
in reverse lexicographic order are returned in their insertion order, not
re-ordered by code: the claimed lexicographic tie-break does not exist in
`sortBySeverity`. -/
theorem sortBySeverity_no_code_tiebreak :
    sortBySeverity
        [RiskFactor.mk "suspicious_tld" "TLD is in a high-abuse set" "high" none,
         RiskFactor.mk "invalid_ssl" "SSL certificate is invalid" "high" none] =
      [RiskFactor.mk "suspicious_tld" "TLD is in a high-abuse set" "high" none,
       RiskFactor.mk "invalid_ssl" "SSL certificate is invalid" "high" none] ∧
    ("invalid_ssl" < "suspicious_tld") := by
  constructor
  · rfl
  · rw [String.lt_iff_toList_lt]
    decide

/-- If every attempt from `attempt` on (for `fuel` attempts) fails with a
transient error, the loop exhausts its retries and the tail returns the
fallback determined by the final attempt's failure kind. -/
theorem scanGo_all_transient (cfg : ApiConfig) (env : Nat → FetchOutcome) :
    ∀ fuel attempt, 0 < fuel →
    (∀ k, k < fuel →
      env (attempt + k) = FetchOutcome.netError ∨
      env (attempt + k) = FetchOutcome.timeout) →
    (scanGo cfg env attempt fuel).outcome =
      ScanOutcome.returns (transientFallbackFor (env (attempt + (fuel - 1)))) := by
  intro fuel
  induction fuel with
  | zero => intro attempt h; omega
  | succ f ih =>
      intro attempt _ h
      have h0 : env attempt = FetchOutcome.netError ∨
          env attempt = FetchOutcome.timeout := by
        simpa using h 0 (Nat.succ_pos f)
      by_cases hf : 0 < f
      · have hrec := ih (attempt + 1) hf (fun k hk => by
          have := h (k + 1) (by omega)
          simpa [Nat.add_assoc, Nat.add_comm 1 k] using this)
        have harg : attempt + 1 + (f - 1) = attempt + (f + 1 - 1) := by omega
        rw [harg] at hrec
        rcases h0 with h0 | h0 <;>
          simp [scanGo, h0, hf, ScanRun.afterRetry, hrec]
      · have hf0 : f = 0 := by omega
        subst hf0
        rcases h0 with h0 | h0 <;>
          simp [scanGo, h0, ScanRun.single, transientFallbackFor]

/-- **C2.** When every fetch attempt fails transiently (network
`TypeError` or timeout `AbortError`), `scanURL` returns — never throws — a
`suspicious` `ScanResult` with `risk_score` 0 whose message is the timeout
text exactly when the final failure was the `AbortError` timeout, and the
connection-failure text otherwise. -/
theorem scanURL_all_transient_fallback (cfg : ApiConfig) (env : Nat → FetchOutcome)
    (h : ∀ k, k ≤ cfg.maxRetries →
      env k = FetchOutcome.netError ∨ env k = FetchOutcome.timeout) :
    (scanURL cfg env).outcome =
      ScanOutcome.returns
        { status := Status.suspicious
          message :=
            if env cfg.maxRetries = FetchOutcome.timeout
            then "Request timed out. Check your network connection."
            else "Could not connect to security server. Check your network."
          risk_score := 0
          details := none } := by
  have hmain := scanGo_all_transient cfg env (cfg.maxRetries + 1) 0
    (Nat.succ_pos _) (fun k hk => by simpa using h k (by omega))
  simp only [Nat.add_sub_cancel, Nat.zero_add] at hmain
  rw [scanURL, hmain]
  rcases h cfg.maxRetries (le_refl _) with hlast | hlast <;>
    simp [hlast, transientFallbackFor, exhaustedFallback]

/-- Witness for C2: two timeouts then a final timeout under
`maxRetries = 2` yield the timeout fallback. -/
theorem scanURL_all_transient_fallback_witness :
    (scanURL (ApiConfig.mk 2 1000) (fun _ => FetchOutcome.timeout)).outcome =
      ScanOutcome.returns
        { status := Status.suspicious
          message := "Request timed out. Check your network connection."
          risk_score := 0
          details := none } := by
  have := scanURL_all_transient_fallback (ApiConfig.mk 2 1000)
    (fun _ => FetchOutcome.timeout) (fun k _ => Or.inr rfl)
  simpa using this

/-- **C3.** A 422 or 429 response makes `scanURL` return (not throw) a
`suspicious` `ScanResult` with `risk_score` 0 at once: for 422 the message
is the body's `detail[0].msg` with fallback `"Invalid URL format."`; this
holds at whichever attempt the response arrives, and in particular on the
first. -/
theorem scanURL_422_429_soft_return (cfg : ApiConfig) (env : Nat → FetchOutcome)
    (attempt fuel : Nat) (d : Option String) (p : Option ScanResult) :
    (env attempt = FetchOutcome.resp 422 d p →
      scanGo cfg env attempt (fuel + 1) =
        ScanRun.single (ScanOutcome.returns
          { status := Status.suspicious
            message := d.getD "Invalid URL format."
            risk_score := 0
            details := none })) ∧
    (env attempt = FetchOutcome.resp 429 d p →
      scanGo cfg env attempt (fuel + 1) =
        ScanRun.single (ScanOutcome.returns
          { status := Status.suspicious
            message := "Too many requests. Please wait a moment and try again."
            risk_score := 0
            details := none })) ∧
    (env 0 = FetchOutcome.resp 422 d p →
      scanURL cfg env =
        ScanRun.single (ScanOutcome.returns
          { status := Status.suspicious
            message := d.getD "Invalid URL format."
            risk_score := 0
            details := none })) ∧
    (env 0 = FetchOutcome.resp 429 d p →
      scanURL cfg env =
        ScanRun.single (ScanOutcome.returns
          { status := Status.suspicious
            message := "Too many requests. Please wait a moment and try again."
            risk_score := 0
            details := none })) := by
  refine ⟨fun h => ?_, fun h => ?_, fun h => ?_, fun h => ?_⟩ <;>
    simp [scanURL, scanGo, h]

/-- Witness for C3: a 422 with a parsed `detail[0].msg` returns that
message; instantiated at `maxRetries = 2`. -/
theorem scanURL_422_429_soft_return_witness :
    scanURL (ApiConfig.mk 2 1000)
        (fun _ => FetchOutcome.resp 422 (some "URL host is not valid") none) =
      ScanRun.single (ScanOutcome.returns
        { status := Status.suspicious
          message := "URL host is not valid"
          risk_score := 0
          details := none }) :=
  (scanURL_422_429_soft_return (ApiConfig.mk 2 1000)
      (fun _ => FetchOutcome.resp 422 (some "URL host is not valid") none)
      0 0 (some "URL host is not valid") none).2.2.1 rfl

/-- **C6.** A 401 or 403 response makes `scanURL` throw immediately with
the corresponding API-key configuration message: exactly one fetch is
performed from that point, no backoff sleep happens, and no fallback
`ScanResult` is returned. -/
theorem scanURL_auth_errors_throw (cfg : ApiConfig) (env : Nat → FetchOutcome)
    (attempt fuel : Nat) (d : Option String) (p : Option ScanResult) :
    (env attempt = FetchOutcome.resp 401 d p →
      scanGo cfg env attempt (fuel + 1) =
        ScanRun.single (ScanOutcome.throws
          "Server requires an API key. Set apiKey in app.json extra.")) ∧
    (env attempt = FetchOutcome.resp 403 d p →
      scanGo cfg env attempt (fuel + 1) =
        ScanRun.single (ScanOutcome.throws
          "Invalid API key. Check apiKey in app.json extra.")) ∧
    (env 0 = FetchOutcome.resp 401 d p →
      scanURL cfg env =
        ScanRun.single (ScanOutcome.throws
          "Server requires an API key. Set apiKey in app.json extra.")) ∧
    (env 0 = FetchOutcome.resp 403 d p →
      scanURL cfg env =
        ScanRun.single (ScanOutcome.throws
          "Invalid API key. Check apiKey in app.json extra.")) := by
  refine ⟨fun h => ?_, fun h => ?_, fun h => ?_, fun h => ?_⟩ <;>
    simp [scanURL, scanGo, h]

/-- Witness for C6: a 401 on the first attempt under `maxRetries = 2`
throws at once with one fetch and no sleeps. -/
theorem scanURL_auth_errors_throw_witness :
    scanURL (ApiConfig.mk 2 1000) (fun _ => FetchOutcome.resp 401 none none) =
      ScanRun.single (ScanOutcome.throws
        "Server requires an API key. Set apiKey in app.json extra.") :=
  (scanURL_auth_errors_throw (ApiConfig.mk 2 1000)
      (fun _ => FetchOutcome.resp 401 none none) 0 0 none none).2.2.1 rfl

/-- If every reachable attempt yields a 5xx response, the loop retries
while attempts remain and finally throws `Server error: <status>` from the
`!response.ok` branch of the last attempt. -/
theorem scanGo_all_server_error (cfg : ApiConfig) (env : Nat → FetchOutcome) :
    ∀ fuel attempt, 0 < fuel →
    (∀ k, k < fuel → isServer5xx (env (attempt + k))) →
    (scanGo cfg env attempt fuel).outcome =
      ScanOutcome.throws
        ("Server error: " ++ toString (respCode (env (attempt + (fuel - 1))))) := by
  intro fuel
  induction fuel with
  | zero => intro attempt h; omega
  | succ f ih =>
      intro attempt _ h
      have h0 : isServer5xx (env attempt) := by simpa using h 0 (Nat.succ_pos f)
      rcases henv : env attempt with _ | _ | ⟨c, d, p⟩
      · rw [henv] at h0; exact absurd h0 (by simp [isServer5xx])
      · rw [henv] at h0; exact absurd h0 (by simp [isServer5xx])
      rw [henv] at h0
      have hc : 500 ≤ c := h0
      have hne422 : ¬ (c = 422) := by omega
      have hne429 : ¬ (c = 429) := by omega
      have hne401 : ¬ (c = 401) := by omega
      have hne403 : ¬ (c = 403) := by omega
      by_cases hf : 0 < f
      · have hrec := ih (attempt + 1) hf (fun k hk => by
          have := h (k + 1) (by omega)
          simpa [Nat.add_assoc, Nat.add_comm 1 k] using this)
        have harg : attempt + 1 + (f - 1) = attempt + (f + 1 - 1) := by omega
        rw [harg] at hrec
        simp [scanGo, henv, hne422, hne429, hne401, hne403, hc, hf,
          ScanRun.afterRetry, hrec]
      · have hf0 : f = 0 := by omega
        subst hf0
        have hnotok : ¬ (respOk c = true) := by
          simp [respOk]
          omega
        simp [scanGo, henv, hne422, hne429, hne401, hne403, hnotok,
          ScanRun.single, respCode]

/-- **C8.** When every fetch attempt yields an HTTP status ≥ 500,
`scanURL` throws an `Error` whose message starts with `"Server error:"`;
it never returns a fallback `ScanResult`, so the tail that computes
`isServerError` is not reached in that case. -/
theorem scanURL_server_errors_throw (cfg : ApiConfig) (env : Nat → FetchOutcome)
    (h : ∀ k, k ≤ cfg.maxRetries → isServer5xx (env k)) :
    (scanURL cfg env).outcome =
      ScanOutcome.throws
        ("Server error: " ++ toString (respCode (env cfg.maxRetries))) ∧
    (∀ r, (scanURL cfg env).outcome ≠ ScanOutcome.returns r) ∧
    startsWithL "Server error:".data
        ("Server error: " ++ toString (respCode (env cfg.maxRetries))).data = true := by
  have hmain := scanGo_all_server_error cfg env (cfg.maxRetries + 1) 0
    (Nat.succ_pos _) (fun k hk => by simpa using h k (by omega))
  simp only [Nat.add_sub_cancel, Nat.zero_add] at hmain
  have h2 : (scanURL cfg env).outcome =
      ScanOutcome.throws
        ("Server error: " ++ toString (respCode (env cfg.maxRetries))) := hmain
  refine ⟨h2, ?_, ?_⟩
  · intro r
    rw [h2]
    simp
  · rw [startsWithL, String.data_append]
    rw [List.take_append_of_le_length (by decide)]
    decide

/-- Witness for C8: three 503 responses under `maxRetries = 2` end in a
thrown `Server error: 503`. -/
theorem scanURL_server_errors_throw_witness :
    (scanURL (ApiConfig.mk 2 1000)
        (fun _ => FetchOutcome.resp 503 none none)).outcome =
      ScanOutcome.throws "Server error: 503" := by
  have := (scanURL_server_errors_throw (ApiConfig.mk 2 1000)
    (fun _ => FetchOutcome.resp 503 none none)
    (fun k _ => by simp [isServer5xx])).1
  simpa using this

/-- The loop performs at least one and at most `fuel` fetches, and the
sleeps are exactly the geometric backoff `retryDelayMs * 2 ^ (attempt + i)`
for `i` ranging over the retries actually taken. -/
theorem scanGo_fetches_sleeps (cfg : ApiConfig) (env : Nat → FetchOutcome) :
    ∀ fuel attempt, 0 < fuel →
    0 < (scanGo cfg env attempt fuel).fetches ∧
    (scanGo cfg env attempt fuel).fetches ≤ fuel ∧
    (scanGo cfg env attempt fuel).sleeps =
      (List.range ((scanGo cfg env attempt fuel).fetches - 1)).map
        (fun i => cfg.retryDelayMs * 2 ^ (attempt + i)) := by
  intro fuel
  induction fuel with
  | zero => intro attempt h; omega
  | succ f ih =>
      intro attempt _
      have hsingle : ∀ o : ScanOutcome,
          0 < (ScanRun.single o).fetches ∧
          (ScanRun.single o).fetches ≤ f + 1 ∧
          (ScanRun.single o).sleeps =
            (List.range ((ScanRun.single o).fetches - 1)).map
              (fun i => cfg.retryDelayMs * 2 ^ (attempt + i)) := by
        intro o
        refine ⟨by simp only [ScanRun.single]; omega,
          by simp only [ScanRun.single]; omega, ?_⟩
        simp [ScanRun.single]
      have hretry : 0 < f →
          0 < (ScanRun.afterRetry (cfg.retryDelayMs * 2 ^ attempt)
                (scanGo cfg env (attempt + 1) f)).fetches ∧
          (ScanRun.afterRetry (cfg.retryDelayMs * 2 ^ attempt)
              (scanGo cfg env (attempt + 1) f)).fetches ≤ f + 1 ∧
          (ScanRun.afterRetry (cfg.retryDelayMs * 2 ^ attempt)
              (scanGo cfg env (attempt + 1) f)).sleeps =
            (List.range ((ScanRun.afterRetry (cfg.retryDelayMs * 2 ^ attempt)
                (scanGo cfg env (attempt + 1) f)).fetches - 1)).map
              (fun i => cfg.retryDelayMs * 2 ^ (attempt + i)) := by
        intro hf
        obtain ⟨hp, hle, hsl⟩ := ih (attempt + 1) hf
        refine ⟨by simp only [ScanRun.afterRetry]; omega,
          by simp only [ScanRun.afterRetry]; omega, ?_⟩
        simp only [ScanRun.afterRetry, Nat.add_sub_cancel]
        obtain ⟨m, hm⟩ : ∃ m, (scanGo cfg env (attempt + 1) f).fetches = m + 1 :=
          ⟨(scanGo cfg env (attempt + 1) f).fetches - 1, by omega⟩
        rw [hsl, hm]
        simp only [Nat.add_sub_cancel, List.range_succ_eq_map, List.map_cons,
          List.map_map, Function.comp, Nat.succ_eq_add_one]
        refine congrArg₂ List.cons (by rw [Nat.add_zero]) ?_
        refine List.map_congr_left (fun i _ => ?_)
        have hexp : attempt + 1 + i = attempt + (i + 1) := by omega
        rw [hexp]
        simp [Function.comp, Nat.succ_eq_add_one]
      rcases henv : env attempt with _ | _ | ⟨c, d, p⟩
      · by_cases hf : 0 < f
        · simp only [scanGo, henv]; rw [if_pos hf]; exact hretry hf
        · simp only [scanGo, henv]; rw [if_neg hf]; exact hsingle _
      · by_cases hf : 0 < f
        · simp only [scanGo, henv]; rw [if_pos hf]; exact hretry hf
        · simp only [scanGo, henv]; rw [if_neg hf]; exact hsingle _
      · simp only [scanGo, henv]
        split_ifs with h422 h429 h401 h403 h5 <;>
          first
            | exact hsingle _
            | exact hretry h5.2
            | (rcases p with _ | r <;> exact hsingle _)

/-- **C9.** Every `scanURL` call performs at least one and at most
`maxRetries + 1` fetch attempts, and the backoff delays slept before the
retries are exactly `retryDelayMs * 2^0, retryDelayMs * 2^1, …` — i.e. the
delay before retry attempt `n` is `retryDelayMs * 2^(n-1)`, doubling with
each successive retry. -/
theorem scanURL_attempt_bound_and_backoff (cfg : ApiConfig)
    (env : Nat → FetchOutcome) :
    0 < (scanURL cfg env).fetches ∧
    (scanURL cfg env).fetches ≤ cfg.maxRetries + 1 ∧
    (scanURL cfg env).sleeps =
      (List.range ((scanURL cfg env).fetches - 1)).map
        (fun i => cfg.retryDelayMs * 2 ^ i) := by
  obtain ⟨hp, hle, hsl⟩ :=
    scanGo_fetches_sleeps cfg env (cfg.maxRetries + 1) 0 (Nat.succ_pos _)
  refine ⟨hp, hle, ?_⟩
  have h2 : (scanURL cfg env).sleeps =
      (List.range ((scanURL cfg env).fetches - 1)).map
        (fun i => cfg.retryDelayMs * 2 ^ (0 + i)) := hsl
  rw [h2]
  exact List.map_congr_left (fun i _ => by rw [Nat.zero_add])

end QRScan
